import Mathlib

/-!
Formal model of the PyNBIS extension module (`pynbis/_nbis_ext.c`), the
Python binding layer over the NBIS fingerprint algorithms (MINDTCT minutiae
detection, Bozorth3 matching, NFIQ quality).  The binding code itself
(argument conversion, truncation, validation, error routing) is embedded
directly from the C source.  The vendored NBIS library functions it calls
(`bz_match_score`, `lfs_detect_minutiae_V2`, `comp_nfiq`) are not part of
the repository snapshot; each is modelled from the specification and its
doc comment says so explicitly.
-/

set_option linter.unusedVariables false

namespace PyNBIS

/-- A minutia in Bozorth XYT form: the fields of `struct xyt_struct` rows
(`xcol`, `ycol`, `thetacol`), each a C `int`. -/
structure XYT where
  x : Int
  y : Int
  theta : Int
deriving DecidableEq, Repr

/-- Modelled from the spec: the cap `MAX_BOZORTH_MINUTIAE` comes from the
vendored `bozorth.h`, which is absent from the snapshot; the spec fixes the
maximum cardinality N of a MinutiaSet at "default ≈150". -/
def MAX_BOZORTH_MINUTIAE : Nat := 150

/-- Modelled from the spec: `DEFAULT_BOZORTH_MINUTIAE`, the per-call cap the
wrapper passes to `bz_match_score`; absent `bozorth.h`, taken as the same
spec value N = 150. -/
def DEFAULT_BOZORTH_MINUTIAE : Nat := 150

/-- Squared Euclidean distance between two minutiae positions. -/
def sqDist (a b : XYT) : Int :=
  (b.x - a.x) ^ 2 + (b.y - a.y) ^ 2

/-- Relative bearing between two minutiae, reduced modulo 360 degrees. -/
def relBearing (a b : XYT) : Int :=
  (b.theta - a.theta) % 360

/-- Circular difference between two angles already reduced modulo 360. -/
def angDiff (a b : Int) : Int :=
  min ((a - b) % 360) ((b - a) % 360)

/-- Modelled from the spec: distance tolerance of the matcher's relation
comparison.  The spec leaves the exact discretization tolerances open
("internal constants not fully visible in the available source"); this
development fixes and documents its own, as the spec permits. -/
def distTol : Int := 125

/-- Modelled from the spec: angular tolerance of the matcher's relation
comparison, in degrees; a documented fixed constant, as the spec permits. -/
def angTol : Int := 11

/-- Compatibility of the pairwise relation (distance, relative bearing) of a
probe pair with that of a gallery pair, within the fixed tolerances. -/
def relCompat (p p' g g' : XYT) : Bool :=
  decide (sqDist p p' - sqDist g g' ≤ distTol) &&
  decide (sqDist g g' - sqDist p p' ≤ distTol) &&
  decide (angDiff (relBearing p p') (relBearing g g') ≤ angTol)

/-- All ordered probe/gallery minutia pairs. -/
def allPairs (P G : List XYT) : List (XYT × XYT) :=
  P.flatMap fun p => G.map fun g => (p, g)

/-- Step 2 of the spec's matcher: a probe minutia and a gallery minutia form
a candidate correspondence when their local relation tables admit at least
one geometrically compatible neighbor pairing within the tolerances. -/
def hasCompatNbr (P G : List XYT) (p g : XYT) : Bool :=
  (P.filter fun p' => decide (p' ≠ p)).any fun p' =>
    (G.filter fun g' => decide (g' ≠ g)).any fun g' =>
      relCompat p p' g g'

/-- Candidate correspondence list between the two sets. -/
def candidates (P G : List XYT) : List (XYT × XYT) :=
  (allPairs P G).filter fun pg => hasCompatNbr P G pg.1 pg.2

/-- Step 3 compatibility of two correspondences: distinct endpoints on both
sides and matching pairwise relations within tolerance. -/
def corrCompat (c d : XYT × XYT) : Bool :=
  decide (c.1 ≠ d.1) && decide (c.2 ≠ d.2) &&
  relCompat c.1 d.1 c.2 d.2

/-- A mutually consistent cluster: every two of its correspondences are
compatible. -/
def clusterOK : List (XYT × XYT) → Bool
  | [] => true
  | c :: cs => cs.all (corrCompat c) && clusterOK cs

/-- Modelled from the spec: the score of the Bozorth3 matcher is the size of
the largest mutually consistent cluster of candidate correspondences; a
cluster must hold at least two correspondences to validate consistency, so
anything smaller scores 0. -/
def specClusterScore (P G : List XYT) : Nat :=
  ((candidates P G).sublists.filter fun c =>
      decide (2 ≤ c.length) && clusterOK c).foldr
    (fun c m => max c.length m) 0

/-- Modelled from the spec: `bz_match_score` (vendored Bozorth3 source, not
in the snapshot).  Consumes at most `maxm` minutiae of each set and returns
the geometric-consistency cluster score. -/
def bz_match_score (maxm : Nat) (P G : List XYT) : Nat :=
  specClusterScore (P.take maxm) (G.take maxm)

/-- Model of the Python objects the wrapper's list entries can be: a dict
with optional `x`, `y`, `direction` keys (plus the optional `quality` field
that detection output carries and `nbis_match_xyt` never reads), or a
non-dict object. -/
inductive PyItem where
  | dict (x y direction : Option Int) (quality : Option ℚ)
  | nonDict
deriving DecidableEq, Repr

/-- The Python exception kinds the wrapper raises.  The C sets a message
with each (for example the TypeError text "Minutiae must be dictionaries");
the model keeps only the exception kind. -/
inductive NbisError where
  | typeError
  | valueError
  | runtimeError
deriving DecidableEq, Repr

/-- Per-record conversion inside `nbis_match_xyt`'s parse loops: a non-dict
raises TypeError; a dict missing any of `x`, `y`, `direction` raises
ValueError; otherwise the three ints populate one XYT row. -/
def parseItem : PyItem → Except NbisError XYT
  | .nonDict => .error .typeError
  | .dict x y t _ =>
    match x, y, t with
    | some a, some b, some c => .ok ⟨a, b, c⟩
    | _, _, _ => .error .valueError

/-- Sequential parse of a minutiae list, failing on the first bad record,
as the C loops do. -/
def parseXYTList : List PyItem → Except NbisError (List XYT)
  | [] => .ok []
  | r :: rs =>
    match parseItem r with
    | .error e => .error e
    | .ok m =>
      match parseXYTList rs with
      | .error e => .error e
      | .ok ms => .ok (m :: ms)

/-- The truncation `nbis_match_xyt` applies to each list before its parse
loop: `if (probe_count > MAX_BOZORTH_MINUTIAE) probe_count = MAX...`, so
only the first `MAX_BOZORTH_MINUTIAE` records are ever read. -/
def xytTruncate (l : List PyItem) : List PyItem :=
  l.take MAX_BOZORTH_MINUTIAE

/-- Embedding of `nbis_match_xyt` (`_nbis_ext.c` lines 335-408): truncate
both lists to the cap, parse the probe records then the gallery records,
and return `bz_match_score DEFAULT_BOZORTH_MINUTIAE` of the results. -/
def nbis_match_xyt (probe gallery : List PyItem) : Except NbisError Int :=
  match parseXYTList (xytTruncate probe) with
  | .error e => .error e
  | .ok P =>
    match parseXYTList (xytTruncate gallery) with
    | .error e => .error e
    | .ok G => .ok (bz_match_score DEFAULT_BOZORTH_MINUTIAE P G)

theorem allPairs_nil_right (P : List XYT) : allPairs P [] = [] := by
  simp [allPairs]

theorem specClusterScore_of_candidates_nil {P G : List XYT}
    (h : candidates P G = []) : specClusterScore P G = 0 := by
  simp [specClusterScore, h, List.sublists]

theorem candidates_nil_left (G : List XYT) : candidates [] G = [] := by
  simp [candidates, allPairs]

theorem candidates_nil_right (P : List XYT) : candidates P [] = [] := by
  simp [candidates, allPairs_nil_right]

theorem candidates_singleton (a b : XYT) : candidates [a] [b] = [] := by
  simp [candidates, allPairs, hasCompatNbr]

/-- A grayscale image as the wrapper sees it after `py_to_image_data`:
width, height, and the flat row-major uint8 buffer read through a pixel
accessor (`pix x y` is buffer index `y * width + x`). -/
structure GrayImage where
  width : Nat
  height : Nat
  pix : Nat → Nat → Nat

/-- Modelled from the spec: the Preprocessor's block size.  The vendored
`lfsparms_V2` parameter set is absent from the snapshot; the wrapper always
passes the one fixed parameter set, and this model fixes the block size at
8 pixels. -/
def blockSize : Nat := 8

/-- Pixels of block (bi, bj), restricted to coordinates inside the image
(blocks on the right/bottom edge may be partial). -/
def blockPixels (img : GrayImage) (bi bj : Nat) : List Nat :=
  (List.range blockSize).flatMap fun dy =>
    (List.range blockSize).filterMap fun dx =>
      let x := bi * blockSize + dx
      let y := bj * blockSize + dy
      if x < img.width ∧ y < img.height then some (img.pix x y) else none

/-- Largest pixel value of a block. -/
def blockMax (img : GrayImage) (bi bj : Nat) : Nat :=
  (blockPixels img bi bj).foldr max 0

/-- Smallest pixel value of a block (255 for an empty block). -/
def blockMin (img : GrayImage) (bi bj : Nat) : Nat :=
  (blockPixels img bi bj).foldr min 255

/-- Modelled from the spec: the Preprocessor's per-block contrast measure,
taken as the pixel value range of the block. -/
def blockContrast (img : GrayImage) (bi bj : Nat) : Nat :=
  blockMax img bi bj - blockMin img bi bj

/-- Modelled from the spec: contrast threshold below which a block is
flagged invalid (low contrast); a documented fixed constant. -/
def contrastThreshold : Nat := 10

/-- Modelled from the spec: a block is valid when its contrast measure
reaches the threshold. -/
def blockValid (img : GrayImage) (bi bj : Nat) : Bool :=
  decide (contrastThreshold ≤ blockContrast img bi bj)

/-- Number of block columns covering the image. -/
def numBlocksX (img : GrayImage) : Nat :=
  (img.width + blockSize - 1) / blockSize

/-- Number of block rows covering the image. -/
def numBlocksY (img : GrayImage) : Nat :=
  (img.height + blockSize - 1) / blockSize

/-- Modelled from the spec: the EMPTY_IMAGE condition — every block of the
image is flagged invalid. -/
def emptyImage (img : GrayImage) : Bool :=
  (List.range (numBlocksX img)).all fun bi =>
    (List.range (numBlocksY img)).all fun bj => !blockValid img bi bj

/-- Mean pixel value of a block (0 for an empty block). -/
def blockMean (img : GrayImage) (bi bj : Nat) : Nat :=
  (blockPixels img bi bj).sum / (blockPixels img bi bj).length

/-- Modelled from the spec: local adaptive binarization — a pixel is set to
255 when it reaches its block's mean value, else 0 (0 = ridge). -/
def binPix (img : GrayImage) (x y : Nat) : Nat :=
  if blockMean img (x / blockSize) (y / blockSize) ≤ img.pix x y then 255 else 0

/-- The binarized image the detector returns: same pixel dimensions as the
source, pixel values from the adaptive binarization. -/
def binarize (img : GrayImage) : GrayImage :=
  ⟨img.width, img.height, fun x y => binPix img x y⟩

/-- Ridge pixel test on the binarized image. -/
def ridgeAt (img : GrayImage) (x y : Nat) : Bool :=
  decide (binPix img x y = 0)

/-- The eight neighbors of an interior pixel, in scan order. -/
def nbrs (x y : Nat) : List (Nat × Nat) :=
  [(x - 1, y - 1), (x, y - 1), (x + 1, y - 1),
   (x - 1, y), (x + 1, y),
   (x - 1, y + 1), (x, y + 1), (x + 1, y + 1)]

/-- Number of ridge pixels among the eight neighbors. -/
def ridgeNbrCount (img : GrayImage) (x y : Nat) : Nat :=
  ((nbrs x y).filter fun q => ridgeAt img q.1 q.2).length

/-- The two minutia kinds of the data model (`RIDGE_ENDING` and
bifurcation). -/
inductive MinutiaKind where
  | ridgeEnding
  | bifurcation
deriving DecidableEq, Repr

/-- A detected minutia: the fields the wrapper copies out of the NBIS
`MINUTIA` struct (`x`, `y`, `direction`, `type`, `reliability`). -/
structure Minutia where
  x : Nat
  y : Nat
  direction : Nat
  kind : MinutiaKind
  reliability : ℚ
deriving DecidableEq, Repr

/-- Modelled from the spec: number of quantized direction bins over 360
degrees; fixed at 32. -/
def numDirBins : Nat := 32

/-- Modelled from the spec: quantized direction of a candidate, derived
deterministically from the ridge pattern of its neighborhood and reduced to
the fixed number of bins. -/
def dirAt (img : GrayImage) (x y : Nat) : Nat :=
  (((nbrs x y).zip (List.range 8)).foldr
    (fun q acc => if ridgeAt img q.1.1 q.1.2 then acc + q.2 * 4 else acc) 0)
    % numDirBins

/-- Modelled from the spec: per-minutia reliability combining the local
block contrast, normalized into [0, 1]. -/
def relAt (img : GrayImage) (x y : Nat) : ℚ :=
  Rat.divInt (min (blockContrast img (x / blockSize) (y / blockSize)) 255) 255

/-- A position is an interior position when all eight neighbors exist. -/
def interior (img : GrayImage) (x y : Nat) : Prop :=
  1 ≤ x ∧ x + 1 < img.width ∧ 1 ≤ y ∧ y + 1 < img.height

instance (img : GrayImage) (x y : Nat) : Decidable (interior img x y) := by
  unfold interior; infer_instance

/-- Modelled from the spec: a candidate minutia — an interior ridge pixel
of a valid block whose neighborhood shows a ridge-ending pattern (exactly
one ridge neighbor) or a bifurcation pattern (exactly three). -/
def isCandidate (img : GrayImage) (x y : Nat) : Bool :=
  decide (interior img x y) &&
  blockValid img (x / blockSize) (y / blockSize) &&
  ridgeAt img x y &&
  (decide (ridgeNbrCount img x y = 1) || decide (ridgeNbrCount img x y = 3))

/-- Kind of a candidate from its neighbor count. -/
def kindAt (img : GrayImage) (x y : Nat) : MinutiaKind :=
  if ridgeNbrCount img x y = 1 then .ridgeEnding else .bifurcation

/-- Modelled from the spec: `lfs_detect_minutiae_V2`'s minutiae list
(vendored MINDTCT source, not in the snapshot) — scan every pixel in
raster order, keep candidates restricted to valid blocks, and attach
position, quantized direction, kind and normalized reliability. -/
def detectList (img : GrayImage) : List Minutia :=
  (List.range img.height).flatMap fun y =>
    (List.range img.width).filterMap fun x =>
      if isCandidate img x y then
        some ⟨x, y, dirAt img x y, kindAt img x y, relAt img x y⟩
      else none

/-- Result dictionary of `nbis_extract_minutiae`: the minutiae list, its
count, and the binarized image. -/
structure ExtractResult where
  minutiae : List Minutia
  count : Nat
  binarized : GrayImage

/-- Embedding of the successful path of `nbis_extract_minutiae`
(`_nbis_ext.c` lines 101-179): run detection with the fixed `lfsparms_V2`
parameter set — the parsed `ppi` argument is never passed on — and build
the result from the minutiae list and the binarized image.  In the model
the detector's return code is always 0 (the spec makes degenerate inputs
non-fatal), so the RuntimeError branch is never taken. -/
def nbis_extract_minutiae (img : GrayImage) (ppi : Int) : Except NbisError ExtractResult :=
  .ok ⟨detectList img, (detectList img).length, binarize img⟩

/-- A numpy uint8 array as `py_to_image_data` receives it: its shape and
its flat (row-major) element buffer, read by index. -/
structure NDArray where
  dims : List Nat
  buf : Nat → Nat

/-- Image built over a flat row-major buffer, as the wrapper's
`memcpy`-then-index access does. -/
def mkImage (w h : Nat) (buf : Nat → Nat) : GrayImage :=
  ⟨w, h, fun x y => buf (y * w + x)⟩

/-- Embedding of `py_to_image_data` (`_nbis_ext.c` lines 51-95): a 2D array
gives height = dims[0], width = dims[1]; a 3D array is accepted only when
dims[2] == 1, with the same height/width and the same buffer; every other
rank or third dimension raises ValueError before any processing. -/
def py_to_image_data (a : NDArray) : Except NbisError GrayImage :=
  match a.dims with
  | [h, w] => .ok (mkImage w h a.buf)
  | [h, w, c] =>
    if c = 1 then .ok (mkImage w h a.buf)
    else .error .valueError
  | _ => .error .valueError

/-- Array-level entrypoint `extract_minutiae`: convert the array, then run
the extraction on the image. -/
def extract_minutiae_ep (a : NDArray) (ppi : Int) : Except NbisError ExtractResult :=
  match py_to_image_data a with
  | .error e => .error e
  | .ok img => nbis_extract_minutiae img ppi

/-- Embedding of `minutiae_to_xyt` (`_nbis_ext.c` lines 185-200): copy the
first `min count max_count` minutiae, in list order, into XYT rows. -/
def minutiae_to_xyt (ms : List Minutia) (max_count : Nat) : List XYT :=
  (ms.take max_count).map fun m => ⟨(m.x : Int), (m.y : Int), (m.direction : Int)⟩

/-- Embedding of `nbis_match_fingerprints` (`_nbis_ext.c` lines 206-287):
convert both arrays, detect minutiae on each, truncate to
`MAX_BOZORTH_MINUTIAE` via `minutiae_to_xyt`, and score. -/
def nbis_match_fingerprints (probe gallery : NDArray) : Except NbisError Int :=
  match py_to_image_data probe with
  | .error e => .error e
  | .ok pimg =>
    match py_to_image_data gallery with
    | .error e => .error e
    | .ok gimg =>
      .ok (bz_match_score DEFAULT_BOZORTH_MINUTIAE
        (minutiae_to_xyt (detectList pimg) MAX_BOZORTH_MINUTIAE)
        (minutiae_to_xyt (detectList gimg) MAX_BOZORTH_MINUTIAE))

/-- Modelled from the spec: NFIQ's minimum computable minutiae count; a
documented fixed constant. -/
def MIN_MINUTIAE : Nat := 5

/-- Modelled from the spec: the quality scorer's fixed decision procedure
mapping the minutiae-count feature to an ordinal class 1 (best) to 5
(worst). -/
def nfiqClass (n : Nat) : Nat :=
  if 50 ≤ n then 1 else if 30 ≤ n then 2 else if 15 ≤ n then 3
  else if MIN_MINUTIAE ≤ n then 4 else 5

/-- Distance between two naturals. -/
def distTo (n b : Nat) : Nat := max n b - min n b

/-- Modelled from the spec: confidence as normalized proximity of the
minutiae-count feature to the nearest class boundary, clamped to [0, 1]. -/
def nfiqConf (n : Nat) : ℚ :=
  Rat.divInt (min (min (distTo n MIN_MINUTIAE)
    (min (distTo n 15) (min (distTo n 30) (distTo n 50)))) 10) 10

/-- Modelled from the spec: `comp_nfiq` (vendored NFIQ source, not in the
snapshot).  Returns (return code, nfiq class, confidence): code 0 for a
normal computation; positive codes for well-formed but degenerate input
(1 empty image, 2 too few minutiae), still carrying a valid worst-class
result; negative codes are reserved for unrecoverable internal errors,
which the pure model never hits. -/
def comp_nfiq (img : GrayImage) (ppi : Int) : Int × Nat × ℚ :=
  if emptyImage img then (1, 5, 1)
  else
    let n := (detectList img).length
    if n < MIN_MINUTIAE then (2, 5, 1)
    else (0, nfiqClass n, nfiqConf n)

/-- Result dictionary of `nbis_compute_nfiq`: quality class, confidence,
and the raw NFIQ return code. -/
structure NfiqResult where
  quality : Nat
  confidence : ℚ
  return_code : Int
deriving DecidableEq, Repr

/-- The spec's three-tier status taxonomy for the quality scorer. -/
inductive QualityStatus where
  | Success
  | AlgorithmicCondition
  | SystemFailure
deriving DecidableEq, Repr

/-- Status conveyed by an NFIQ return code: 0 is a normal computation,
positive codes are algorithmic conditions, negative codes are system
failures. -/
def statusOfRet (ret : Int) : QualityStatus :=
  if ret < 0 then .SystemFailure
  else if ret = 0 then .Success
  else .AlgorithmicCondition

/-- Embedding of the result routing of `nbis_compute_nfiq` (`_nbis_ext.c`
lines 309-328): a negative `comp_nfiq` return raises RuntimeError with no
result; any other return yields the result dictionary carrying quality,
confidence and the return code. -/
def routeNfiq (ret : Int) (q : Nat) (c : ℚ) : Except NbisError NfiqResult :=
  if ret < 0 then .error .runtimeError
  else .ok ⟨q, c, ret⟩

/-- Embedding of `nbis_compute_nfiq` on a converted image: run `comp_nfiq`
and route its result. -/
def nbis_compute_nfiq (img : GrayImage) (ppi : Int) : Except NbisError NfiqResult :=
  routeNfiq (comp_nfiq img ppi).1 (comp_nfiq img ppi).2.1 (comp_nfiq img ppi).2.2

/-- Array-level entrypoint `compute_nfiq`: convert the array, then compute
NFIQ. -/
def compute_nfiq_ep (a : NDArray) (ppi : Int) : Except NbisError NfiqResult :=
  match py_to_image_data a with
  | .error e => .error e
  | .ok img => nbis_compute_nfiq img ppi

/-- The module-level globals the extension defines for the NBIS libraries
(`_nbis_ext.c` lines 36-44): Bozorth3 configuration and the error stream
flag set once at module init. -/
structure NbisGlobals where
  m1_xyt : Int
  max_minutiae : Nat
  min_computable_minutiae : Nat
  verbose_main : Int
  verbose_load : Int
  verbose_bozorth : Int
  verbose_threshold : Int
  errorfp_is_stderr : Bool
deriving DecidableEq, Repr

/-- State-passing form of `extract_minutiae`: the entrypoint never writes
the module globals. -/
def extract_minutiae_st (a : NDArray) (ppi : Int) (s : NbisGlobals) :
    Except NbisError ExtractResult × NbisGlobals :=
  (extract_minutiae_ep a ppi, s)

/-- State-passing form of `compute_nfiq`: the entrypoint never writes the
module globals. -/
def compute_nfiq_st (a : NDArray) (ppi : Int) (s : NbisGlobals) :
    Except NbisError NfiqResult × NbisGlobals :=
  (compute_nfiq_ep a ppi, s)

/-- State-passing form of `match_xyt`: the entrypoint never writes the
module globals. -/
def match_xyt_st (p g : List PyItem) (s : NbisGlobals) :
    Except NbisError Int × NbisGlobals :=
  (nbis_match_xyt p g, s)

/-- State-passing form of `match_fingerprints`: the entrypoint never writes
the module globals. -/
def match_fingerprints_st (a b : NDArray) (s : NbisGlobals) :
    Except NbisError Int × NbisGlobals :=
  (nbis_match_fingerprints a b, s)

/-- C1: the matcher returns score 0 whenever either input minutiae set is
empty, and two single-minutia sets always score 0 whatever the coordinates
and directions, because a consistent cluster needs at least two
correspondences; at the wrapper level, `nbis_match_xyt` on two empty lists
returns score 0. -/
theorem match_empty_or_singleton_scores_zero :
    ∀ (S : List XYT) (a b : XYT),
      bz_match_score DEFAULT_BOZORTH_MINUTIAE [] S = 0 ∧
      bz_match_score DEFAULT_BOZORTH_MINUTIAE S [] = 0 ∧
      bz_match_score DEFAULT_BOZORTH_MINUTIAE [a] [b] = 0 ∧
      nbis_match_xyt [] [] = .ok 0 := by
  intro S a b
  refine ⟨?_, ?_, ?_, ?_⟩
  · exact specClusterScore_of_candidates_nil (candidates_nil_left _)
  · exact specClusterScore_of_candidates_nil (candidates_nil_right _)
  · have h1 : ([a].take DEFAULT_BOZORTH_MINUTIAE) = [a] := rfl
    have h2 : ([b].take DEFAULT_BOZORTH_MINUTIAE) = [b] := rfl
    unfold bz_match_score
    rw [h1, h2]
    exact specClusterScore_of_candidates_nil (candidates_singleton a b)
  · rfl

/-- C7: the four entrypoints are stateless and deterministic — in the
explicit state-passing embedding of the module globals, every call returns
the state unchanged, and a repeated call with identical inputs on the
post-call state returns an identical result. -/
theorem entrypoints_stateless_and_deterministic :
    ∀ (s : NbisGlobals) (a b : NDArray) (ppi : Int) (p g : List PyItem),
      (extract_minutiae_st a ppi s).2 = s ∧
      (compute_nfiq_st a ppi s).2 = s ∧
      (match_xyt_st p g s).2 = s ∧
      (match_fingerprints_st a b s).2 = s ∧
      (extract_minutiae_st a ppi (extract_minutiae_st a ppi s).2).1
        = (extract_minutiae_st a ppi s).1 ∧
      (compute_nfiq_st a ppi (compute_nfiq_st a ppi s).2).1
        = (compute_nfiq_st a ppi s).1 ∧
      (match_xyt_st p g (match_xyt_st p g s).2).1 = (match_xyt_st p g s).1 ∧
      (match_fingerprints_st a b (match_fingerprints_st a b s).2).1
        = (match_fingerprints_st a b s).1 := by
  intro s a b ppi p g
  exact ⟨rfl, rfl, rfl, rfl, rfl, rfl, rfl, rfl⟩

/-- C9: minutiae extraction is independent of the `ppi` argument — the
wrapper parses `ppi` but always runs detection with the one fixed
`lfsparms_V2` parameter set, so any two `ppi` values give identical
minutiae lists and identical binarized images. -/
theorem extract_minutiae_independent_of_ppi :
    ∀ (a : NDArray) (img : GrayImage) (p1 p2 : Int),
      extract_minutiae_ep a p1 = extract_minutiae_ep a p2 ∧
      nbis_extract_minutiae img p1 = nbis_extract_minutiae img p2 := by
  intro a img p1 p2
  exact ⟨rfl, rfl⟩

/-- C3: the quality scorer's result routing — a return code 0 means a
Success-status result, a positive return code still yields a valid result
carrying AlgorithmicCondition status, and only a negative return code
raises an error with no result; `nbis_compute_nfiq` is exactly this routing
applied to the `comp_nfiq` output. -/
theorem nfiq_status_routing :
    ∀ (img : GrayImage) (ppi ret : Int) (q : Nat) (c : ℚ),
      (ret < 0 → routeNfiq ret q c = .error .runtimeError) ∧
      (0 ≤ ret → routeNfiq ret q c = .ok ⟨q, c, ret⟩) ∧
      (statusOfRet ret = .Success ↔ ret = 0) ∧
      (0 < ret → statusOfRet ret = .AlgorithmicCondition) ∧
      nbis_compute_nfiq img ppi =
        routeNfiq (comp_nfiq img ppi).1 (comp_nfiq img ppi).2.1
          (comp_nfiq img ppi).2.2 := by
  intro img ppi ret q c
  refine ⟨?_, ?_, ?_, ?_, rfl⟩
  · intro h; simp [routeNfiq, h]
  · intro h; simp [routeNfiq, not_lt.mpr h]
  · unfold statusOfRet
    split_ifs with h1 h2
    · constructor
      · intro hc; exact absurd hc (by simp)
      · intro hc; exact absurd hc (by omega)
    · simp [h2]
    · constructor
      · intro hc; exact absurd hc (by simp)
      · intro hc; exact absurd hc h2
  · intro h
    have h1 : ¬ ret < 0 := by omega
    have h2 : ret ≠ 0 := by omega
    simp [statusOfRet, h1, h2]

/-- Witness for the NFIQ routing theorem at concrete return codes: -1 is
rejected with no result, 0 maps to Success, 2 yields a result with
AlgorithmicCondition status. -/
theorem nfiq_status_routing_witness :
    (-1 : Int) < 0 ∧
    routeNfiq (-1) 3 (1/2) = .error .runtimeError ∧
    (0 : Int) ≤ 2 ∧
    routeNfiq 2 5 1 = .ok ⟨5, 1, 2⟩ ∧
    (0 : Int) < 2 ∧
    statusOfRet 2 = .AlgorithmicCondition ∧
    statusOfRet 0 = .Success :=
  ⟨by decide,
   (nfiq_status_routing ⟨0, 0, fun _ _ => 0⟩ 500 (-1) 3 (1/2)).1 (by decide),
   by decide,
   (nfiq_status_routing ⟨0, 0, fun _ _ => 0⟩ 500 2 5 1).2.1 (by decide),
   by decide,
   (nfiq_status_routing ⟨0, 0, fun _ _ => 0⟩ 500 2 5 1).2.2.2.1 (by decide),
   (nfiq_status_routing ⟨0, 0, fun _ _ => 0⟩ 500 0 5 1).2.2.1.mpr rfl⟩

/-- C8: the binarized image returned by minutiae extraction has exactly the
source image's pixel dimensions, and every pixel of it is 0 or 255. -/
theorem binarized_same_dims_two_valued :
    ∀ (img : GrayImage) (ppi : Int) (r : ExtractResult),
      nbis_extract_minutiae img ppi = .ok r →
      r.binarized.width = img.width ∧
      r.binarized.height = img.height ∧
      ∀ x y, r.binarized.pix x y = 0 ∨ r.binarized.pix x y = 255 := by
  intro img ppi r h
  have hr : r = ⟨detectList img, (detectList img).length, binarize img⟩ := by
    simpa [nbis_extract_minutiae] using h.symm
  subst hr
  refine ⟨rfl, rfl, ?_⟩
  intro x y
  unfold binarize binPix
  by_cases hb : blockMean img (x / blockSize) (y / blockSize) ≤ img.pix x y
  · right; simp [hb]
  · left; simp [hb]

/-- Witness for the binarized-image theorem on a concrete 2-by-2 image. -/
theorem binarized_same_dims_two_valued_witness :
    nbis_extract_minutiae ⟨2, 2, fun _ _ => 7⟩ 500 =
      .ok ⟨detectList ⟨2, 2, fun _ _ => 7⟩,
        (detectList ⟨2, 2, fun _ _ => 7⟩).length,
        binarize ⟨2, 2, fun _ _ => 7⟩⟩ ∧
    (binarize ⟨2, 2, fun _ _ => 7⟩).width = 2 ∧
    ((binarize ⟨2, 2, fun _ _ => 7⟩).pix 0 0 = 0 ∨
      (binarize ⟨2, 2, fun _ _ => 7⟩).pix 0 0 = 255) :=
  ⟨rfl,
   (binarized_same_dims_two_valued ⟨2, 2, fun _ _ => 7⟩ 500 _ rfl).1,
   (binarized_same_dims_two_valued ⟨2, 2, fun _ _ => 7⟩ 500 _ rfl).2.2 0 0⟩

/-- C10: a 3D uint8 array of shape (H, W, 1) is accepted by every
image-consuming entrypoint and gives exactly the result of the 2D (H, W)
array over the same buffer, while any other third dimension is rejected
with ValueError by every entrypoint before any processing. -/
theorem channel_dim_one_same_as_2d :
    ∀ (h w c : Nat) (buf : Nat → Nat) (ppi : Int) (a2 : NDArray),
      py_to_image_data ⟨[h, w, 1], buf⟩ = py_to_image_data ⟨[h, w], buf⟩ ∧
      extract_minutiae_ep ⟨[h, w, 1], buf⟩ ppi
        = extract_minutiae_ep ⟨[h, w], buf⟩ ppi ∧
      compute_nfiq_ep ⟨[h, w, 1], buf⟩ ppi = compute_nfiq_ep ⟨[h, w], buf⟩ ppi ∧
      nbis_match_fingerprints ⟨[h, w, 1], buf⟩ a2
        = nbis_match_fingerprints ⟨[h, w], buf⟩ a2 ∧
      nbis_match_fingerprints a2 ⟨[h, w, 1], buf⟩
        = nbis_match_fingerprints a2 ⟨[h, w], buf⟩ ∧
      (c ≠ 1 →
        py_to_image_data ⟨[h, w, c], buf⟩ = .error .valueError ∧
        extract_minutiae_ep ⟨[h, w, c], buf⟩ ppi = .error .valueError ∧
        compute_nfiq_ep ⟨[h, w, c], buf⟩ ppi = .error .valueError ∧
        nbis_match_fingerprints ⟨[h, w, c], buf⟩ a2 = .error .valueError) := by
  intro h w c buf ppi a2
  have hpy : py_to_image_data ⟨[h, w, 1], buf⟩ = py_to_image_data ⟨[h, w], buf⟩ := rfl
  refine ⟨hpy, ?_, ?_, ?_, ?_, ?_⟩
  · unfold extract_minutiae_ep; rw [hpy]
  · unfold compute_nfiq_ep; rw [hpy]
  · unfold nbis_match_fingerprints; rw [hpy]
  · unfold nbis_match_fingerprints; rw [hpy]
  · intro hc
    have hbad : py_to_image_data ⟨[h, w, c], buf⟩ = .error .valueError := by
      simp [py_to_image_data, hc]
    refine ⟨hbad, ?_, ?_, ?_⟩
    · unfold extract_minutiae_ep; rw [hbad]
    · unfold compute_nfiq_ep; rw [hbad]
    · unfold nbis_match_fingerprints; rw [hbad]

/-- Witness for the shape-handling theorem: a (2, 2, 3) array is rejected
by all entrypoints, and the (2, 2, 1) array equals the (2, 2) one. -/
theorem channel_dim_one_same_as_2d_witness :
    (3 : Nat) ≠ 1 ∧
    py_to_image_data ⟨[2, 2, 3], fun _ => 0⟩ = .error .valueError ∧
    extract_minutiae_ep ⟨[2, 2, 3], fun _ => 0⟩ 500 = .error .valueError ∧
    py_to_image_data ⟨[2, 2, 1], fun _ => 0⟩ =
      py_to_image_data ⟨[2, 2], fun _ => 0⟩ :=
  ⟨by decide,
   ((channel_dim_one_same_as_2d 2 2 3 (fun _ => 0) 500 ⟨[2, 2], fun _ => 0⟩).2.2.2.2.2
     (by decide)).1,
   ((channel_dim_one_same_as_2d 2 2 3 (fun _ => 0) 500 ⟨[2, 2], fun _ => 0⟩).2.2.2.2.2
     (by decide)).2.1,
   (channel_dim_one_same_as_2d 2 2 3 (fun _ => 0) 500 ⟨[2, 2], fun _ => 0⟩).1⟩

theorem relAt_nonneg_le_one (img : GrayImage) (x y : Nat) :
    0 ≤ relAt img x y ∧ relAt img x y ≤ 1 := by
  unfold relAt
  constructor
  · exact Rat.divInt_nonneg (le_min (Int.natCast_nonneg _) (by norm_num))
      (by norm_num)
  · have h1 : (1 : ℚ) = Rat.divInt 255 255 := by decide
    rw [h1, Rat.divInt_le_divInt (by norm_num) (by norm_num)]
    have hle :=
      min_le_right ((blockContrast img (x / blockSize) (y / blockSize) : ℤ)) 255
    nlinarith

/-- C5: every minutia returned by minutiae extraction has its x within
[0, width), its y within [0, height), reliability within [0, 1], and a kind
that is exactly ridge ending or bifurcation. -/
theorem detected_minutiae_wellformed :
    ∀ (img : GrayImage) (ppi : Int) (r : ExtractResult) (m : Minutia),
      nbis_extract_minutiae img ppi = .ok r → m ∈ r.minutiae →
      m.x < img.width ∧ m.y < img.height ∧
      0 ≤ m.reliability ∧ m.reliability ≤ 1 ∧
      (m.kind = .ridgeEnding ∨ m.kind = .bifurcation) := by
  intro img ppi r m hok hm
  have hr : r = ⟨detectList img, (detectList img).length, binarize img⟩ := by
    simpa [nbis_extract_minutiae] using hok.symm
  subst hr
  simp only at hm
  unfold detectList at hm
  rw [List.mem_flatMap] at hm
  obtain ⟨y, hy, hx⟩ := hm
  rw [List.mem_filterMap] at hx
  obtain ⟨x, hxr, hsome⟩ := hx
  rw [List.mem_range] at hy
  rw [List.mem_range] at hxr
  by_cases hc : isCandidate img x y
  · rw [if_pos hc] at hsome
    have hmx : m = ⟨x, y, dirAt img x y, kindAt img x y, relAt img x y⟩ :=
      (Option.some_injective _ hsome).symm
    subst hmx
    refine ⟨hxr, hy, (relAt_nonneg_le_one img x y).1,
      (relAt_nonneg_le_one img x y).2, ?_⟩
    unfold kindAt
    by_cases h1 : ridgeNbrCount img x y = 1
    · left; simp [h1]
    · right; simp [h1]
  · rw [if_neg hc] at hsome
    exact absurd hsome (by simp)

/-- An 8-by-8 test image: white background with a short dark horizontal
stroke, which yields two ridge-ending minutiae. -/
def c5img : GrayImage :=
  ⟨8, 8, fun x y => if y = 3 ∧ 2 ≤ x ∧ x ≤ 4 then 0 else 255⟩

set_option maxRecDepth 8000 in
/-- Witness for the minutiae-wellformedness theorem: a concrete detected
minutia of the test image satisfies all the bounds. -/
theorem detected_minutiae_wellformed_witness :
    nbis_extract_minutiae c5img 500 =
      .ok ⟨detectList c5img, (detectList c5img).length, binarize c5img⟩ ∧
    (⟨2, 3, 16, .ridgeEnding, 1⟩ : Minutia) ∈ detectList c5img ∧
    (2 : Nat) < c5img.width ∧ (3 : Nat) < c5img.height ∧
    (0 : ℚ) ≤ 1 ∧ (1 : ℚ) ≤ 1 ∧
    ((MinutiaKind.ridgeEnding = MinutiaKind.ridgeEnding) ∨
      (MinutiaKind.ridgeEnding = MinutiaKind.bifurcation)) := by
  have hmem : (⟨2, 3, 16, .ridgeEnding, 1⟩ : Minutia) ∈ detectList c5img := by
    decide
  have h := detected_minutiae_wellformed c5img 500
    ⟨detectList c5img, (detectList c5img).length, binarize c5img⟩
    ⟨2, 3, 16, .ridgeEnding, 1⟩ rfl hmem
  exact ⟨rfl, hmem, h.1, h.2.1, h.2.2.1, h.2.2.2.1, h.2.2.2.2⟩

theorem blockPixels_const (w h v bi bj : Nat) :
    ∀ a ∈ blockPixels ⟨w, h, fun x y => v⟩ bi bj, a = v := by
  intro a ha
  unfold blockPixels at ha
  rw [List.mem_flatMap] at ha
  obtain ⟨dy, hdy, ha⟩ := ha
  rw [List.mem_filterMap] at ha
  obtain ⟨dx, hdx, ha⟩ := ha
  by_cases hc : bi * blockSize + dx < w ∧ bj * blockSize + dy < h
  · rw [if_pos hc] at ha
    exact (Option.some_injective _ ha).symm
  · rw [if_neg hc] at ha
    exact absurd ha (by simp)

theorem sum_of_const {l : List Nat} {v : Nat} (h : ∀ a ∈ l, a = v) :
    l.sum = l.length * v := by
  have hrep := List.eq_replicate_of_mem h
  rw [hrep]
  simp [List.sum_replicate, smul_eq_mul]

theorem blockMean_const_le (w h v bi bj : Nat) :
    blockMean ⟨w, h, fun x y => v⟩ bi bj ≤ v := by
  unfold blockMean
  have hsum := sum_of_const (blockPixels_const w h v bi bj)
  rw [hsum]
  rcases Nat.eq_zero_or_pos (blockPixels ⟨w, h, fun x y => v⟩ bi bj).length
    with h0 | hpos
  · simp [h0]
  · exact le_of_eq (Nat.mul_div_cancel_left v hpos)

theorem binPix_const (w h v x y : Nat) :
    binPix ⟨w, h, fun a b => v⟩ x y = 255 := by
  unfold binPix
  rw [if_pos]
  exact blockMean_const_le w h v _ _

theorem detectList_const (w h v : Nat) :
    detectList ⟨w, h, fun x y => v⟩ = [] := by
  unfold detectList
  rw [List.flatMap_eq_nil_iff]
  intro y hy
  rw [List.filterMap_eq_nil_iff]
  intro x hx
  rw [if_neg]
  have hridge : ridgeAt ⟨w, h, fun a b => v⟩ x y = false := by
    unfold ridgeAt
    simp [binPix_const]
  unfold isCandidate
  rw [hridge]
  simp

theorem detectList_small (img : GrayImage)
    (hs : img.width ≤ 2 ∨ img.height ≤ 2) : detectList img = [] := by
  unfold detectList
  rw [List.flatMap_eq_nil_iff]
  intro y hy
  rw [List.filterMap_eq_nil_iff]
  intro x hx
  rw [List.mem_range] at hy
  rw [List.mem_range] at hx
  rw [if_neg]
  have hint : decide (interior img x y) = false := by
    rw [decide_eq_false_iff_not]
    unfold interior
    rintro ⟨h1, h2, h3, h4⟩
    rcases hs with h | h <;> omega
  unfold isCandidate
  rw [hint]
  simp

/-- C4: a textureless (constant-valued) image yields an empty minutiae list
with no error; in particular the 512-by-512 constant image gives an empty
MinutiaSet from extraction and quality class 5 with AlgorithmicCondition
status from the quality scorer; and a small image (width or height at most
2) likewise yields an empty MinutiaSet with no error. -/
theorem constant_image_empty_minutiae_worst_quality :
    ∀ (v : Nat) (ppi : Int) (img : GrayImage),
      extract_minutiae_ep ⟨[512, 512], fun i => v⟩ ppi =
        .ok ⟨[], 0, binarize (mkImage 512 512 fun i => v)⟩ ∧
      (∃ r, compute_nfiq_ep ⟨[512, 512], fun i => v⟩ ppi = .ok r ∧
        r.quality = 5 ∧ statusOfRet r.return_code = .AlgorithmicCondition) ∧
      (img.width ≤ 2 ∨ img.height ≤ 2 →
        nbis_extract_minutiae img ppi = .ok ⟨[], 0, binarize img⟩) := by
  intro v ppi img
  have hdet : detectList (mkImage 512 512 fun i => v) = [] :=
    detectList_const 512 512 v
  refine ⟨?_, ?_, ?_⟩
  · simp [extract_minutiae_ep, py_to_image_data, nbis_extract_minutiae, hdet]
  · cases hE : emptyImage (mkImage 512 512 fun i => v) with
    | true =>
      refine ⟨⟨5, 1, 1⟩, ?_, rfl, by decide⟩
      simp [compute_nfiq_ep, py_to_image_data, nbis_compute_nfiq, comp_nfiq,
        hE, routeNfiq]
    | false =>
      refine ⟨⟨5, 1, 2⟩, ?_, rfl, by decide⟩
      simp [compute_nfiq_ep, py_to_image_data, nbis_compute_nfiq, comp_nfiq,
        hE, hdet, MIN_MINUTIAE, routeNfiq]
  · intro hs
    have hd := detectList_small img hs
    simp [nbis_extract_minutiae, hd]

/-- Witness for the degenerate-image theorem: a 2-wide image is small, and
extraction on it returns the empty minutiae list without error. -/
theorem constant_image_empty_minutiae_worst_quality_witness :
    ((⟨2, 5, fun x y => 9⟩ : GrayImage).width ≤ 2 ∨
      (⟨2, 5, fun x y => 9⟩ : GrayImage).height ≤ 2) ∧
    nbis_extract_minutiae ⟨2, 5, fun x y => 9⟩ 500 =
      .ok ⟨[], 0, binarize ⟨2, 5, fun x y => 9⟩⟩ :=
  ⟨Or.inl (by decide),
   (constant_image_empty_minutiae_worst_quality 0 500
     ⟨2, 5, fun x y => 9⟩).2.2 (Or.inl (by decide))⟩

/-- Reliability of a record as the spec's truncation rule would read it:
the optional `quality` field, defaulting to 0 when absent. -/
def relOfItem : PyItem → ℚ
  | .dict _ _ _ q => q.getD 0
  | .nonDict => 0

/-- Transcription of the claim's truncation rule ("truncated to exactly N
entries, keeping the N highest-reliability entries"): the kept list has
exactly n entries and no supplied entry left out is more reliable than any
kept entry.  This definition follows the claim's words, for comparison
against the code's `xytTruncate`. -/
def keepsNHighest (l kept : List PyItem) (n : Nat) : Prop :=
  kept.length = n ∧
  ∀ a ∈ l, a ∉ kept → ∀ b ∈ kept, relOfItem a ≤ relOfItem b

/-- A record of reliability 0. -/
def loRec : PyItem := .dict (some 0) (some 0) (some 0) (some 0)

/-- A record of reliability 1. -/
def hiRec : PyItem := .dict (some 1) (some 1) (some 1) (some 1)

/-- A 151-record list whose single highest-reliability record sits last. -/
def overList : List PyItem := List.replicate 150 loRec ++ [hiRec]

/-- Counterexample to C2 as stated: on a 151-record list whose most
reliable record sits last, the code truncates to the first 150 records and
drops the single highest-reliability one, so the kept records are not the
150 highest-reliability entries. -/
theorem truncation_keeps_first_not_highest_cex :
    overList.length > MAX_BOZORTH_MINUTIAE ∧
    ¬ keepsNHighest overList (xytTruncate overList) MAX_BOZORTH_MINUTIAE := by
  have htr : xytTruncate overList = List.replicate 150 loRec := by
    unfold xytTruncate overList MAX_BOZORTH_MINUTIAE
    have h := List.take_left (List.replicate 150 loRec) [hiRec]
    rwa [List.length_replicate] at h
  constructor
  · simp [overList, MAX_BOZORTH_MINUTIAE]
  · rintro ⟨hlen, hall⟩
    have hmem : hiRec ∈ overList := by simp [overList]
    have hnot : hiRec ∉ xytTruncate overList := by
      rw [htr]
      intro hc
      exact absurd (List.mem_replicate.mp hc).2 (by decide)
    have hb : loRec ∈ xytTruncate overList := by
      rw [htr]
      exact List.mem_replicate.mpr ⟨by decide, rfl⟩
    have hle := hall hiRec hmem hnot loRec hb
    rw [show relOfItem hiRec = 1 from rfl, show relOfItem loRec = 0 from rfl]
      at hle
    exact absurd hle (by norm_num)

/-- Well-formedness of a record, as `nbis_match_xyt`'s validation sees it:
a dict carrying all of `x`, `y`, `direction`. -/
def itemOk : PyItem → Bool
  | .dict (some _) (some _) (some _) _ => true
  | _ => false

theorem parseItem_ok_of_itemOk {r : PyItem} (h : itemOk r = true) :
    ∃ m, parseItem r = .ok m := by
  cases r with
  | nonDict => simp [itemOk] at h
  | dict x y t q =>
    rcases x with _ | a
    · simp [itemOk] at h
    rcases y with _ | b
    · simp [itemOk] at h
    rcases t with _ | c
    · simp [itemOk] at h
    exact ⟨⟨a, b, c⟩, rfl⟩

theorem parseXYTList_ok_of_all {l : List PyItem}
    (h : ∀ r ∈ l, itemOk r = true) : ∃ ms, parseXYTList l = .ok ms := by
  induction l with
  | nil => exact ⟨[], rfl⟩
  | cons r rs ih =>
    obtain ⟨m, hm⟩ := parseItem_ok_of_itemOk (h r (by simp))
    obtain ⟨ms, hms⟩ := ih fun r' hr' => h r' (by simp [hr'])
    exact ⟨m :: ms, by simp [parseXYTList, hm, hms]⟩

/-- C2 amended: a list longer than the cap is deterministically truncated
to exactly the first `MAX_BOZORTH_MINUTIAE` records in supplied order —
reliability plays no role in which records are kept — and exceeding the
cap raises no error: when every record within the cap is well-formed,
matching still returns a score. -/
theorem truncation_keeps_first_N :
    ∀ (l g : List PyItem), l.length > MAX_BOZORTH_MINUTIAE →
      xytTruncate l = l.take MAX_BOZORTH_MINUTIAE ∧
      (xytTruncate l).length = MAX_BOZORTH_MINUTIAE ∧
      ((∀ r ∈ xytTruncate l, itemOk r = true) →
        (∀ r ∈ xytTruncate g, itemOk r = true) →
        ∃ s, nbis_match_xyt l g = .ok s) := by
  intro l g hlen
  refine ⟨rfl, ?_, ?_⟩
  · rw [xytTruncate, List.length_take]
    omega
  · intro hp hg
    obtain ⟨P, hP⟩ := parseXYTList_ok_of_all hp
    obtain ⟨G, hG⟩ := parseXYTList_ok_of_all hg
    exact ⟨((bz_match_score DEFAULT_BOZORTH_MINUTIAE P G : Nat) : Int),
      by simp [nbis_match_xyt, hP, hG]⟩

set_option maxRecDepth 8000 in
/-- Witness for the amended truncation theorem on the concrete 151-record
list: it exceeds the cap, truncation yields exactly 150 records, and
matching it against an empty gallery returns a score with no error. -/
theorem truncation_keeps_first_N_witness :
    overList.length > MAX_BOZORTH_MINUTIAE ∧
    (xytTruncate overList).length = MAX_BOZORTH_MINUTIAE ∧
    (∃ s, nbis_match_xyt overList [] = .ok s) := by
  have h := truncation_keeps_first_N overList [] (by decide)
  exact ⟨by decide, h.2.1, h.2.2 (by decide) (by decide)⟩

theorem candidates_singleton_right (P : List XYT) (b : XYT) :
    candidates P [b] = [] := by
  unfold candidates
  rw [List.filter_eq_nil_iff]
  intro pg hpg
  unfold allPairs at hpg
  rw [List.mem_flatMap] at hpg
  obtain ⟨p, hp, hpg⟩ := hpg
  rw [List.mem_map] at hpg
  obtain ⟨gg, hgg, heq⟩ := hpg
  have hgb : gg = b := by simpa using hgg
  subst hgb
  subst heq
  simp [hasCompatNbr]

theorem parseItem_error_of_bad {r : PyItem} (h : itemOk r = false) :
    ∃ e, parseItem r = .error e := by
  cases r with
  | nonDict => exact ⟨.typeError, rfl⟩
  | dict x y t q =>
    rcases x with _ | a
    · exact ⟨.valueError, rfl⟩
    rcases y with _ | b
    · exact ⟨.valueError, rfl⟩
    rcases t with _ | c
    · exact ⟨.valueError, rfl⟩
    · simp [itemOk] at h

theorem parseXYTList_error_of_mem {l : List PyItem} {r : PyItem}
    (hr : r ∈ l) (hbad : itemOk r = false) :
    ∃ e, parseXYTList l = .error e := by
  induction l with
  | nil => simp at hr
  | cons a as ih =>
    rcases List.mem_cons.mp hr with h | h
    · subst h
      obtain ⟨e, he⟩ := parseItem_error_of_bad hbad
      exact ⟨e, by simp [parseXYTList, he]⟩
    · cases ha : parseItem a with
      | error e => exact ⟨e, by simp [parseXYTList, ha]⟩
      | ok m =>
        obtain ⟨e, he⟩ := ih h
        exact ⟨e, by simp [parseXYTList, ha, he]⟩

theorem parseXYTList_replicate_lo (n : Nat) :
    parseXYTList (List.replicate n loRec) =
      .ok (List.replicate n ⟨0, 0, 0⟩) := by
  induction n with
  | zero => rfl
  | succ k ih =>
    have hpi : parseItem loRec = .ok ⟨0, 0, 0⟩ := rfl
    rw [List.replicate_succ]
    simp only [parseXYTList, hpi, ih]
    rw [List.replicate_succ]

/-- A 151-record probe whose single malformed record sits just beyond the
truncation cap. -/
def c6probe : List PyItem := List.replicate 150 loRec ++ [PyItem.nonDict]

/-- Counterexample to C6 as stated: a malformed (non-dict) record supplied
at position 151 is silently discarded by the pre-validation truncation, so
`nbis_match_xyt` raises no error and produces a score. -/
theorem malformed_beyond_cap_scores_cex :
    PyItem.nonDict ∈ c6probe ∧
    parseItem PyItem.nonDict = .error .typeError ∧
    nbis_match_xyt c6probe [loRec] = .ok 0 := by
  refine ⟨by simp [c6probe], rfl, ?_⟩
  have htr : xytTruncate c6probe = List.replicate 150 loRec := by
    unfold xytTruncate c6probe MAX_BOZORTH_MINUTIAE
    have h := List.take_left (List.replicate 150 loRec) [PyItem.nonDict]
    rwa [List.length_replicate] at h
  have hgal : parseXYTList (xytTruncate [loRec]) = .ok [⟨0, 0, 0⟩] := rfl
  have hscore : bz_match_score DEFAULT_BOZORTH_MINUTIAE
      (List.replicate 150 ⟨0, 0, 0⟩) [⟨0, 0, 0⟩] = 0 := by
    unfold bz_match_score
    exact specClusterScore_of_candidates_nil (candidates_singleton_right _ _)
  unfold nbis_match_xyt
  rw [htr, parseXYTList_replicate_lo, hgal]
  show Except.ok ((bz_match_score DEFAULT_BOZORTH_MINUTIAE
      (List.replicate 150 ⟨0, 0, 0⟩) [⟨0, 0, 0⟩] : Nat) : Int) = Except.ok 0
  rw [hscore]
  rfl

/-- C6 amended: a malformed record among the records actually read (the
first `MAX_BOZORTH_MINUTIAE` of either list) makes `nbis_match_xyt` raise
an error immediately, with no score produced; malformed records beyond the
cap are dropped unexamined by the truncation. -/
theorem malformed_within_cap_rejected :
    ∀ (p g : List PyItem) (r : PyItem),
      (r ∈ xytTruncate p ∨ r ∈ xytTruncate g) → itemOk r = false →
      ∃ e, nbis_match_xyt p g = .error e := by
  intro p g r hmem hbad
  rcases hmem with h | h
  · obtain ⟨e, he⟩ := parseXYTList_error_of_mem h hbad
    exact ⟨e, by simp [nbis_match_xyt, he]⟩
  · cases hp : parseXYTList (xytTruncate p) with
    | error e => exact ⟨e, by simp [nbis_match_xyt, hp]⟩
    | ok P =>
      obtain ⟨e, he⟩ := parseXYTList_error_of_mem h hbad
      exact ⟨e, by simp [nbis_match_xyt, hp, he]⟩

/-- Witness for the amended malformed-record theorem: a single non-dict
record within the cap makes matching error out with no score. -/
theorem malformed_within_cap_rejected_witness :
    PyItem.nonDict ∈ xytTruncate [PyItem.nonDict] ∧
    itemOk PyItem.nonDict = false ∧
    (∃ e, nbis_match_xyt [PyItem.nonDict] [] = .error e) :=
  ⟨by decide, rfl,
   malformed_within_cap_rejected [PyItem.nonDict] [] PyItem.nonDict
     (Or.inl (by decide)) rfl⟩

end PyNBIS
